import Mathlib

/-!
Verification development for the scramble word game repository.

The definitions below are shallow embeddings of the TypeScript source:
the pure scoring and scrambling utilities, the room data model, and the
room state machine operations of the useGameRoom hook.  JavaScript
numbers are modelled as rationals (for times and multipliers) and
integers (for point totals); the shared realtime store is modelled as an
explicit room value, and the client-local idempotency refs as explicit
lists carried in a client state.
-/

namespace Scramble

/-! ## Definitions: shallow embedding of the source -/

/-- Scoring function of the main variant (utils/gameUtils `calculatePoints`):
returns 0 when the guess is not correct, otherwise
`Math.round(basePoints * Math.max(0.3, 1 - timeElapsed / maxTime))`. -/
def calculatePoints (isCorrect : Bool) (timeElapsed maxTime basePoints : ℚ) : ℤ :=
  if !isCorrect then 0
  else
    let speedMultiplier : ℚ := max (3/10) (1 - timeElapsed / maxTime)
    round (basePoints * speedMultiplier)

/-- Scoring function of the second variant (utils/scramble `calculatePoints`):
`Math.floor(50 + Math.max(0, 1 - timeElapsed / maxTime) * 50)`. -/
def calculatePointsV1 (timeElapsed maxTime : ℚ) : ℤ :=
  let timeRatio : ℚ := max 0 (1 - timeElapsed / maxTime)
  ⌊(50 : ℚ) + timeRatio * 50⌋

/-- The scoring formula as the specification words it:
`round(basePoints * max(minMultiplier, 1 - elapsedSeconds/roundDurationSeconds))`
with the floor constant `minMultiplier = 0.3` of this implementation. -/
def scoreSpec (basePoints elapsedSeconds roundDurationSeconds : ℚ) : ℤ :=
  round (basePoints * max (3/10) (1 - elapsedSeconds / roundDurationSeconds))

/-- In-place swap of two positions of a list, as the JS destructuring
assignment `[letters[i], letters[j]] = [letters[j], letters[i]]`. -/
def swapL (l : List Char) (i j : ℕ) : List Char :=
  match l[i]?, l[j]? with
  | some a, some b => (l.set i b).set j a
  | _, _ => l

/-- The Fisher-Yates loop `for (let i = n - 1; i > 0; i--)`; the counter is
the current value of `i`, and `rand i % (i + 1)` models
`Math.floor(Math.random() * (i + 1))` for the ambient random source. -/
def fyAux (rand : ℕ → ℕ) : ℕ → List Char → List Char
  | 0, l => l
  | Nat.succ i, l => fyAux rand i (swapL l (i + 1) (rand (i + 1) % (i + 2)))

/-- Scrambler of the main variant (utils/gameUtils `scrambleWord`): lowercase
the word, Fisher-Yates shuffle, and if the shuffle reproduced the lowercased
word and the word has length > 1, swap the first two letters. -/
def scrambleWord (rand : ℕ → ℕ) (word : List Char) : List Char :=
  let letters := word.map Char.toLower
  let scrambled := fyAux rand (letters.length - 1) letters
  if scrambled = letters ∧ word.length > 1 then swapL scrambled 0 1
  else scrambled

/-- Scrambler of the second variant (utils/scramble `scrambleWord`): on a
self-identical shuffle of a word of length > 1 it retries recursively with
fresh randomness; each list entry is the random source of one attempt and
plays the role of fuel, `none` meaning the retry loop never exited. -/
def scrambleWordRec (rands : List (ℕ → ℕ)) (word : List Char) : Option (List Char) :=
  match rands with
  | [] => none
  | r :: rs =>
    let letters := word.map Char.toLower
    let scrambled := fyAux r (letters.length - 1) letters
    if scrambled = letters ∧ word.length > 1 then scrambleWordRec rs word
    else some scrambled

/-- Text is modelled as a list of characters. -/
abbrev Str := List Char

inductive GameStatus
  | waiting
  | playing
  | finished
deriving DecidableEq, Inhabited

structure Player where
  id : Str
  name : Str
  score : ℤ
  isHost : Bool
  isOnline : Bool
  lastActive : ℤ
deriving DecidableEq, Inhabited

structure Guess where
  playerId : Str
  playerName : Str
  guess : Str
  timestamp : ℤ
  isCorrect : Bool
  points : ℤ
deriving DecidableEq, Inhabited

structure GameState where
  status : GameStatus
  currentRound : ℕ
  totalRounds : ℕ
  currentWordGiver : Option Str
  currentWord : Option Str
  scrambledWord : Option Str
  roundStartTime : Option ℤ
  roundDuration : ℕ
  guesses : List Guess
  roundWinner : Option Str
  timeRemaining : ℕ
  wordGiverOrder : List Str
  hasFoundWord : Bool
  roundEndTime : Option ℤ
deriving DecidableEq, Inhabited

structure GameSettings where
  maxPlayers : ℕ
  roundDuration : ℕ
  totalRounds : ℕ
  category : Str
  pointsForCorrect : ℕ
  pointsForSpeed : ℕ
deriving DecidableEq, Inhabited

structure GameRoom where
  id : Str
  code : Str
  hostId : Str
  players : List (Str × Player)
  gameState : GameState
  settings : GameSettings
  createdAt : ℤ
  updatedAt : ℤ
deriving DecidableEq, Inhabited

/-- JS object key access `room.players[pid]`; the player map is modelled as an
association list in key insertion order, as JS objects enumerate string keys. -/
def lookupP : List (Str × Player) → Str → Option Player
  | [], _ => none
  | q :: t, pid => if q.1 = pid then some q.2 else lookupP t pid

/-- The realtime-store write to path `players/<pid>/score`: overwrites the
score field of the player keyed `pid` (modelled for players that exist). -/
def setScore : List (Str × Player) → Str → ℤ → List (Str × Player)
  | [], _, _ => []
  | q :: t, pid, s =>
    (if q.1 = pid then (q.1, { q.2 with score := s }) else q) :: setScore t pid s

/-- The realtime-store write to path `players/<pid>`: replaces the player at
an existing key, otherwise appends a new key (JS object key insertion). -/
def insertPlayer (ps : List (Str × Player)) (pid : Str) (p : Player) : List (Str × Player) :=
  if ∃ q ∈ ps, q.1 = pid then
    ps.map (fun q => if q.1 = pid then (q.1, p) else q)
  else ps ++ [(pid, p)]

def lower (s : Str) : Str := s.map Char.toLower

def upper (s : Str) : Str := s.map Char.toUpper

/-- `createRoom(hostName, hostId)`: the fresh room value written to the store. -/
def createRoom (newRoomId roomCode hostName hostId : Str) (now : ℤ) : GameRoom :=
  { id := newRoomId
    code := roomCode
    hostId := hostId
    players := [(hostId,
      { id := hostId, name := hostName, score := 0, isHost := true,
        isOnline := true, lastActive := now })]
    gameState :=
      { status := .waiting
        currentRound := 0
        totalRounds := 5
        currentWordGiver := none
        currentWord := none
        scrambledWord := none
        roundStartTime := none
        roundDuration := 60
        guesses := []
        roundWinner := none
        timeRemaining := 60
        wordGiverOrder := []
        hasFoundWord := false
        roundEndTime := none }
    settings :=
      { maxPlayers := 8, roundDuration := 60, totalRounds := 5,
        category := [ 'g', 'e', 'n', 'e', 'r', 'a', 'l'],
        pointsForCorrect := 100, pointsForSpeed := 50 }
    createdAt := now
    updatedAt := now }

inductive JoinOutcome
  | notFound
  | roomFull
  | joined (roomId : Str)
deriving DecidableEq

/-- `joinRoom(roomCode, playerName, playerId)` over the room directory: scan
for a room whose code equals the uppercased input; reject when absent or full,
otherwise write the new non-host player with score 0 under the player id. -/
def joinRoom (rooms : List (Str × GameRoom)) (roomCode playerName playerId : Str)
    (now : ℤ) : JoinOutcome × List (Str × GameRoom) :=
  match rooms.find? (fun e => e.2.code == upper roomCode) with
  | none => (.notFound, rooms)
  | some e =>
    if e.2.players.length ≥ e.2.settings.maxPlayers then (.roomFull, rooms)
    else
      let newPlayer : Player :=
        { id := playerId, name := playerName, score := 0, isHost := false,
          isOnline := true, lastActive := now }
      (.joined e.1,
        rooms.map (fun r =>
          if r.1 = e.1 then (r.1, { r.2 with players := insertPlayer r.2.players playerId newPlayer })
          else r))

/-- `startGame()`: the hook checks only that a room and a user id are loaded;
it snapshots the player ids as the giver order, picks `playerIds[0]` as the
first giver, sets round 1 and status playing, and resets the guess state. -/
def startGame (room : GameRoom) (now : ℤ) : GameRoom :=
  let playerIds := room.players.map (fun q => q.1)
  { room with
    gameState := { room.gameState with
      status := .playing
      currentRound := 1
      currentWordGiver := playerIds.head?
      roundStartTime := some now
      timeRemaining := room.settings.roundDuration
      guesses := []
      wordGiverOrder := playerIds
      hasFoundWord := false }
    updatedAt := now }

/-- `submitWord(word)`: store the lowercased word and its scramble, stamp the
round start, and reset the guess list and found flag. -/
def submitWord (room : GameRoom) (rand : ℕ → ℕ) (word : Str) (now : ℤ) : GameRoom :=
  { room with
    gameState := { room.gameState with
      currentWord := some (lower word)
      scrambledWord := some (scrambleWord rand word)
      roundStartTime := some now
      timeRemaining := room.settings.roundDuration
      guesses := []
      hasFoundWord := false }
    updatedAt := now }

/-- Sudden-death extension length by word length (seconds). -/
def timeExtensionOf (wordLength : ℕ) : ℤ :=
  if wordLength ≤ 5 then 30 else if wordLength ≤ 8 then 45 else 60

/-- `submitGuess(guess, playerName)`: evaluates a guess against the current
word (case-insensitive), appends the guess record, and on the first correct
guess credits the score, sets the winner and found flag, and opens the
extension window.  The deferred round advance it schedules is modelled by
`endRoundFinishStep`. -/
def submitGuess (room : GameRoom) (userId playerName guessText : Str) (now : ℤ) : GameRoom :=
  match room.gameState.currentWord with
  | none => room
  | some w =>
    let isCorrect := lower guessText == lower w
    let timeElapsed : ℚ :=
      match room.gameState.roundStartTime with
      | some t => ((now - t : ℤ) : ℚ) / 1000
      | none => 0
    let points : ℤ :=
      if isCorrect then
        calculatePoints true timeElapsed (room.settings.roundDuration : ℚ)
          (room.settings.pointsForCorrect : ℚ)
      else 0
    let newGuess : Guess :=
      { playerId := userId, playerName := playerName, guess := guessText,
        timestamp := now, isCorrect := isCorrect, points := points }
    let updatedGuesses := room.gameState.guesses ++ [newGuess]
    if isCorrect && !room.gameState.hasFoundWord then
      let currentScore : ℤ := ((lookupP room.players userId).map (fun p => p.score)).getD 0
      let newEndTime : ℤ := now + timeExtensionOf w.length * 1000
      let currentTime : ℤ := room.gameState.roundStartTime.getD now
      { room with
        players := setScore room.players userId (currentScore + points)
        gameState := { room.gameState with
          guesses := updatedGuesses
          roundWinner := some userId
          hasFoundWord := true
          roundEndTime := some newEndTime
          roundStartTime := some currentTime }
        updatedAt := now }
    else
      { room with
        gameState := { room.gameState with guesses := updatedGuesses }
        updatedAt := now }

/-- One client of the hook: its current subscription snapshot of the room and
its two client-local idempotency ref maps, keyed by room id and round. -/
structure ClientState where
  view : GameRoom
  timeoutSent : List (Str × ℕ)
  nextSent : List (Str × ℕ)
deriving DecidableEq

/-- Delivery of the current store value to the client subscription. -/
def refresh (c : ClientState) (store : GameRoom) : ClientState :=
  { c with view := store }

/-- The immediate effect of `endRound(wasFound)`: when the round was not
found and the client has not yet handled the timeout of the round it is
viewing, mark the local ref and write the giver score (computed from the
view) plus the flat 50 consolation points to the store. -/
def endRoundWrite (c : ClientState) (store : GameRoom) (wasFound : Bool) (now : ℤ) :
    ClientState × GameRoom :=
  let key : Str × ℕ := (c.view.id, c.view.gameState.currentRound)
  if wasFound = false ∧ key ∉ c.timeoutSent then
    let wordGiverId : Str := c.view.gameState.currentWordGiver.getD []
    let wordGiverScore : ℤ := ((lookupP c.view.players wordGiverId).map (fun p => p.score)).getD 0
    let pointsForWordGiver : ℤ := 50
    ({ c with timeoutSent := key :: c.timeoutSent },
     { store with
        players := setScore store.players wordGiverId (wordGiverScore + pointsForWordGiver)
        updatedAt := now })
  else (c, store)

/-- JS `Array.prototype.indexOf`, returning -1 when the element is absent. -/
def jsIndexOf (l : List Str) (x : Str) : ℤ :=
  match l.indexOf? x with
  | some i => (i : ℤ)
  | none => -1

/-- `nextRound()`: rotate the giver and write the next round number (all
computed from the client view), guarded by the client-local start ref for the
next round.  The shared store drops empty lists, so an empty stored giver
order reads back as undefined and falls back to the player keys. -/
def nextRoundOp (c : ClientState) (store : GameRoom) (now : ℤ) : ClientState × GameRoom :=
  let g := c.view.gameState
  let playerIds := if g.wordGiverOrder.isEmpty then c.view.players.map (fun q => q.1)
    else g.wordGiverOrder
  let currentGiverIndex : ℤ := jsIndexOf playerIds (g.currentWordGiver.getD [])
  let nextGiverIndex : ℕ := (currentGiverIndex + 1).toNat % playerIds.length
  let nextWordGiver : Option Str := playerIds[nextGiverIndex]?
  let nextRoundNumber := g.currentRound + 1
  let key : Str × ℕ := (c.view.id, nextRoundNumber)
  if key ∈ c.nextSent then (c, store)
  else
    ({ c with nextSent := key :: c.nextSent },
     { store with
        gameState := { store.gameState with
          currentRound := nextRoundNumber
          currentWordGiver := nextWordGiver
          currentWord := none
          scrambledWord := none
          roundStartTime := some now
          timeRemaining := c.view.settings.roundDuration
          guesses := []
          roundWinner := none
          hasFoundWord := false
          roundEndTime := none }
        updatedAt := now })

/-- The deferred tail shared by `endRound` and `submitGuess`: if the viewed
round has reached the configured total, mark the game finished, otherwise
advance via `nextRound`. -/
def endRoundFinishStep (c : ClientState) (store : GameRoom) (now : ℤ) :
    ClientState × GameRoom :=
  if c.view.gameState.currentRound ≥ c.view.settings.totalRounds then
    (c, { store with gameState := { store.gameState with status := .finished } })
  else nextRoundOp c store now

/-- One synchronized round-resolution cycle of a client: receive the current
store value, then run the deferred finish-or-advance step. -/
def roundCycle (p : ClientState × GameRoom) (now : ℤ) : ClientState × GameRoom :=
  endRoundFinishStep (refresh p.1 p.2) p.2 now

/-- Iterated round-resolution cycles. -/
def advanceTrace (now : ℤ) : ℕ → (ClientState × GameRoom) → (ClientState × GameRoom)
  | 0, p => p
  | k + 1, p => advanceTrace now k (roundCycle p now)

def pA : Str := [ 'A']

def pB : Str := [ 'B']

def playerA : Player :=
  { id := pA, name := pA, score := 0, isHost := true, isOnline := true, lastActive := 0 }

def playerB : Player :=
  { id := pB, name := pB, score := 0, isHost := false, isOnline := true, lastActive := 0 }

def baseRoom : GameRoom :=
  createRoom [ 'r'] [ 'R', 'O', 'O', 'M', '1', '2'] pA pA 0

def roomPlaying : GameRoom :=
  { baseRoom with
    players := [(pA, playerA), (pB, playerB)]
    gameState := { baseRoom.gameState with
      status := .playing
      currentRound := 1
      currentWordGiver := some pA
      wordGiverOrder := [pA, pB]
      roundStartTime := some 0 } }

def roomC6 : GameRoom :=
  { roomPlaying with
    players := [(pA, playerA)]
    gameState := { roomPlaying.gameState with currentRound := 3 } }

def pC : Str := [ 'C']

def dirC7 : List (Str × GameRoom) := [(baseRoom.id, roomPlaying)]

def roomC8 : GameRoom :=
  { roomPlaying with
    gameState := { roomPlaying.gameState with currentWord := some [ 'c', 'a', 't'] } }

def roomC2 : GameRoom :=
  { roomPlaying with
    gameState := { roomPlaying.gameState with
      currentWord := some [ 'c', 'a', 't']
      hasFoundWord := true
      roundWinner := some pA } }

/-- A store that has advanced to round 3 of 5 while a stale client still
views the round-1 state. -/
def roomRound3 : GameRoom :=
  { roomPlaying with
    gameState := { roomPlaying.gameState with currentRound := 3 } }

/-- Invariant of the synchronized round-resolution trace: the configured
total is stable, the round counter tracks the cycle index until the total is
reached and the game is then finished, and the client start-ref keys never
exceed the next round number. -/
def TraceInv (N : ℕ) (q : ClientState × GameRoom) (j : ℕ) : Prop :=
  q.2.settings.totalRounds = N ∧
  (j < N → q.2.gameState.currentRound = j + 1 ∧ q.2.gameState.status = GameStatus.playing) ∧
  (N ≤ j → q.2.gameState.currentRound = N ∧ q.2.gameState.status = GameStatus.finished) ∧
  (∀ key ∈ q.1.nextSent, key.2 ≤ j + 1)

/-! ## Theorems -/

theorem cons_set_perm (t : List Char) : ∀ (k : ℕ) (a b : Char),
    t[k]? = some b → List.Perm (b :: t.set k a) (a :: t) := by
  induction t with
  | nil => intro k a b hb; simp at hb
  | cons y s ih =>
    intro k a b hb
    cases k with
    | zero =>
      simp only [List.getElem?_cons_zero, Option.some.injEq] at hb
      subst hb
      exact List.Perm.swap a y s
    | succ m =>
      simp only [List.getElem?_cons_succ] at hb
      have h1 : List.Perm (b :: s.set m a) (a :: s) := ih m a b hb
      have h2 : List.Perm (b :: y :: s.set m a) (y :: b :: s.set m a) :=
        List.Perm.swap y b (s.set m a)
      have h3 : List.Perm (y :: b :: s.set m a) (y :: a :: s) := h1.cons y
      have h4 : List.Perm (y :: a :: s) (a :: y :: s) := List.Perm.swap a y s
      exact (h2.trans h3).trans h4

theorem set_set_perm : ∀ (l : List Char) (i j : ℕ) (a b : Char),
    l[i]? = some a → l[j]? = some b → List.Perm ((l.set i b).set j a) l := by
  intro l
  induction l with
  | nil => intro i j a b ha _; simp at ha
  | cons x t ih =>
    intro i j a b ha hb
    cases i with
    | zero =>
      simp only [List.getElem?_cons_zero, Option.some.injEq] at ha
      subst ha
      cases j with
      | zero => exact List.Perm.refl _
      | succ k =>
        simp only [List.getElem?_cons_succ] at hb
        exact cons_set_perm t k x b hb
    | succ m =>
      simp only [List.getElem?_cons_succ] at ha
      cases j with
      | zero =>
        simp only [List.getElem?_cons_zero, Option.some.injEq] at hb
        subst hb
        exact cons_set_perm t m x a ha
      | succ k =>
        simp only [List.getElem?_cons_succ] at hb
        exact (ih m k a b ha hb).cons x

theorem swapL_perm (l : List Char) (i j : ℕ) : List.Perm (swapL l i j) l := by
  unfold swapL
  cases hi : l[i]? with
  | none => exact List.Perm.refl l
  | some a =>
    cases hj : l[j]? with
    | none => exact List.Perm.refl l
    | some b => exact set_set_perm l i j a b hi hj

theorem fyAux_perm (rand : ℕ → ℕ) : ∀ (n : ℕ) (l : List Char), List.Perm (fyAux rand n l) l := by
  intro n
  induction n with
  | zero => intro l; exact List.Perm.refl l
  | succ i ih =>
    intro l
    exact (ih _).trans (swapL_perm l (i + 1) (rand (i + 1) % (i + 2)))

theorem lookupP_setScore_self (ps : List (Str × Player)) (pid : Str) (p : Player) (s : ℤ)
    (h : lookupP ps pid = some p) :
    lookupP (setScore ps pid s) pid = some { p with score := s } := by
  induction ps with
  | nil => simp [lookupP] at h
  | cons q t ih =>
    by_cases hq : q.1 = pid
    · simp only [lookupP, if_pos hq, Option.some.injEq] at h
      simp only [setScore, if_pos hq, lookupP, h]
    · simp only [lookupP, if_neg hq] at h
      simp only [setScore, if_neg hq, lookupP]
      exact ih h

theorem lookupP_replace_self (ps : List (Str × Player)) (pid : Str) (p : Player)
    (hmem : ∃ q ∈ ps, q.1 = pid) :
    lookupP (ps.map (fun q => if q.1 = pid then (q.1, p) else q)) pid = some p := by
  induction ps with
  | nil => simp at hmem
  | cons q t ih =>
    by_cases hq : q.1 = pid
    · simp only [List.map_cons, hq, eq_self_iff_true, if_true, lookupP]
    · simp only [List.map_cons, if_neg hq, lookupP]
      apply ih
      rcases hmem with ⟨r, hr, hrpid⟩
      rcases List.mem_cons.mp hr with rfl | hrt
      · exact absurd hrpid hq
      · exact ⟨r, hrt, hrpid⟩

theorem lookupP_append_fresh (ps : List (Str × Player)) (pid : Str) (p : Player)
    (hmem : ¬ ∃ q ∈ ps, q.1 = pid) :
    lookupP (ps ++ [(pid, p)]) pid = some p := by
  induction ps with
  | nil => simp [lookupP]
  | cons q t ih =>
    have hq : q.1 ≠ pid := fun h => hmem ⟨q, List.mem_cons_self q t, h⟩
    simp only [List.cons_append, lookupP, if_neg hq]
    exact ih (fun ⟨r, hr, hrpid⟩ => hmem ⟨r, List.mem_cons_of_mem q hr, hrpid⟩)

theorem lookupP_insertPlayer_self (ps : List (Str × Player)) (pid : Str) (p : Player) :
    lookupP (insertPlayer ps pid p) pid = some p := by
  unfold insertPlayer
  by_cases hmem : ∃ q ∈ ps, q.1 = pid
  · rw [if_pos hmem]; exact lookupP_replace_self ps pid p hmem
  · rw [if_neg hmem]; exact lookupP_append_fresh ps pid p hmem

theorem insertPlayer_length_fresh (ps : List (Str × Player)) (pid : Str) (p : Player)
    (hmem : ¬ ∃ q ∈ ps, q.1 = pid) :
    (insertPlayer ps pid p).length = ps.length + 1 := by
  simp [insertPlayer, if_neg hmem]

/-- C10: a created room is waiting with currentRound 0; only startGame moves
currentRound to 1. -/
theorem createRoom_initial_round_zero (newRoomId roomCode hostName hostId : Str) (now now2 : ℤ) :
    (createRoom newRoomId roomCode hostName hostId now).gameState.status = GameStatus.waiting ∧
    (createRoom newRoomId roomCode hostName hostId now).gameState.currentRound = 0 ∧
    (startGame (createRoom newRoomId roomCode hostName hostId now) now2).gameState.currentRound = 1 :=
  ⟨rfl, rfl, rfl⟩

/-- C3: the scoring function returns 0 whenever isCorrect is false, and for a
correct guess with positive round duration and non-negative base points it
returns round(basePoints * max(0.3, 1 - elapsed/duration)). -/
theorem calculatePoints_matches_spec (e d b : ℚ) :
    calculatePoints false e d b = 0 ∧
    (0 < d → 0 ≤ b → calculatePoints true e d b = scoreSpec b e d) :=
  ⟨rfl, fun _ _ => rfl⟩

theorem calculatePoints_matches_spec_witness :
    calculatePoints false 5 30 100 = 0 ∧
    (0 : ℚ) < 30 ∧ (0 : ℚ) ≤ 100 ∧ calculatePoints true 5 30 100 = scoreSpec 100 5 30 :=
  ⟨(calculatePoints_matches_spec 5 30 100).1, by norm_num, by norm_num,
    (calculatePoints_matches_spec 5 30 100).2 (by norm_num) (by norm_num)⟩

/-- C9: for a correct guess, both scoring variants are monotonically
non-increasing in elapsed time for a fixed positive round duration and a
fixed non-negative base point value. -/
theorem calculatePoints_antitone_in_elapsed (e1 e2 d b : ℚ)
    (he0 : 0 ≤ e1) (he : e1 < e2) (hd : 0 < d) (hb : 0 ≤ b) :
    calculatePoints true e2 d b ≤ calculatePoints true e1 d b ∧
    calculatePointsV1 e2 d ≤ calculatePointsV1 e1 d := by
  have hdiv : e1 / d ≤ e2 / d := by gcongr
  have hsub : 1 - e2 / d ≤ 1 - e1 / d := by linarith
  constructor
  · show round (b * max (3/10) (1 - e2 / d)) ≤ round (b * max (3/10) (1 - e1 / d))
    rw [round_eq, round_eq]
    apply Int.floor_le_floor
    have hmax : max (3/10 : ℚ) (1 - e2 / d) ≤ max (3/10 : ℚ) (1 - e1 / d) :=
      max_le_max le_rfl hsub
    have := mul_le_mul_of_nonneg_left hmax hb
    linarith
  · show ⌊(50 : ℚ) + max 0 (1 - e2 / d) * 50⌋ ≤ ⌊(50 : ℚ) + max 0 (1 - e1 / d) * 50⌋
    apply Int.floor_le_floor
    have hmax : max (0 : ℚ) (1 - e2 / d) ≤ max (0 : ℚ) (1 - e1 / d) :=
      max_le_max le_rfl hsub
    nlinarith [hmax]

theorem calculatePoints_antitone_in_elapsed_witness :
    (0 : ℚ) ≤ 5 ∧ (5 : ℚ) < 10 ∧ (0 : ℚ) < 30 ∧ (0 : ℚ) ≤ 100 ∧
    (calculatePoints true 10 30 100 ≤ calculatePoints true 5 30 100 ∧
      calculatePointsV1 10 30 ≤ calculatePointsV1 5 30) :=
  ⟨by norm_num, by norm_num, by norm_num, by norm_num,
    calculatePoints_antitone_in_elapsed 5 10 30 100 (by norm_num) (by norm_num)
      (by norm_num) (by norm_num)⟩

/-- C4 counterexample: for the word "aa" (length 2 > 1), the random source
that always picks the identity swap makes the Fisher-Yates shuffle reproduce
the input, and the first-two-letter fallback swap returns the input itself,
so the scrambler output equals the input. -/
theorem scrambleWord_aa_counterexample :
    scrambleWord (fun n => n) [ 'a', 'a'] = [ 'a', 'a'] ∧
    ([ 'a', 'a'] : Str).length > 1 := by
  constructor
  · decide
  · decide

/-- C4 amended: for every random source, the main scrambler returns a
permutation of the lowercased word and returns the lowercased word itself
when the length is at most 1; the output is guaranteed to differ from the
lowercased word only when its first two characters differ; and whenever the
recursive variant terminates on a word of length > 1, its output is a
permutation that differs from the lowercased word. -/
theorem scrambleWord_amended (rand : ℕ → ℕ) (word : Str) :
    List.Perm (scrambleWord rand word) (lower word) ∧
    (word.length ≤ 1 → scrambleWord rand word = lower word) ∧
    (word.length > 1 → (lower word)[0]? ≠ (lower word)[1]? →
      scrambleWord rand word ≠ lower word) ∧
    (∀ (rands : List (ℕ → ℕ)) (res : Str), scrambleWordRec rands word = some res →
      List.Perm res (lower word) ∧ (word.length > 1 → res ≠ lower word)) := by
  refine ⟨?_, ?_, ?_, ?_⟩
  · simp only [scrambleWord]
    split
    · exact (swapL_perm _ 0 1).trans (fyAux_perm rand _ _)
    · exact fyAux_perm rand _ _
  · intro hlen
    simp only [scrambleWord]
    have h0 : (word.map Char.toLower).length - 1 = 0 := by
      simp only [List.length_map]; omega
    rw [h0]
    rw [if_neg (fun hand => absurd hand.2 (by omega))]
    rfl
  · intro hlen hne
    simp only [scrambleWord]
    split
    · next h =>
      obtain ⟨hs, _⟩ := h
      rw [hs]
      have hlen2 : 1 < (lower word).length := by
        simpa only [lower, List.length_map] using hlen
      show swapL (lower word) 0 1 ≠ lower word
      obtain ⟨a, l1, hw1⟩ : ∃ a l1, lower word = a :: l1 := by
        cases hlw : lower word with
        | nil => rw [hlw] at hlen2; simp at hlen2
        | cons a l1 => exact ⟨a, l1, rfl⟩
      obtain ⟨b, t, hw2⟩ : ∃ b t, l1 = b :: t := by
        cases hl1 : l1 with
        | nil => rw [hw1, hl1] at hlen2; simp at hlen2
        | cons b t => exact ⟨b, t, rfl⟩
      rw [hw2] at hw1
      rw [hw1] at hne ⊢
      have hab : a ≠ b := by
        intro hab
        apply hne
        simp [List.getElem?_cons_zero, List.getElem?_cons_succ, hab]
      have hswap : swapL (a :: b :: t) 0 1 = b :: a :: t := by
        simp only [swapL, List.getElem?_cons_zero, List.getElem?_cons_succ]
        rfl
      rw [hswap]
      intro heq
      simp only [List.cons.injEq] at heq
      exact hab heq.1.symm
    · next h =>
      exact fun heq => h ⟨heq, hlen⟩
  · intro rands
    induction rands with
    | nil => intro res hres; simp [scrambleWordRec] at hres
    | cons r rs ih =>
      intro res hres
      simp only [scrambleWordRec] at hres
      split at hres
      · exact ih res hres
      · next h =>
        obtain rfl : res = fyAux r ((word.map Char.toLower).length - 1) (word.map Char.toLower) :=
          (Option.some.injEq _ _).mp hres.symm
        refine ⟨fyAux_perm r _ _, fun hlen heq => h ⟨heq, hlen⟩⟩

theorem scrambleWord_amended_witness :
    List.Perm (scrambleWord (fun n => n) [ 'a', 'b']) (lower [ 'a', 'b']) ∧
    ([ 'a', 'b'] : Str).length > 1 ∧
    (lower [ 'a', 'b'])[0]? ≠ (lower [ 'a', 'b'])[1]? ∧
    scrambleWord (fun n => n) [ 'a', 'b'] ≠ lower [ 'a', 'b'] :=
  ⟨(scrambleWord_amended (fun n => n) [ 'a', 'b']).1, by decide, by decide,
    (scrambleWord_amended (fun n => n) [ 'a', 'b']).2.2.1 (by decide) (by decide)⟩

/-- C6 counterexample: startGame in the hook has no host, status or player
count guard: invoked on a room that is already playing in round 3 with a
single player, it still rewrites the shared state (round back to 1), so the
invocation is not a no-op. -/
theorem startGame_unguarded_counterexample :
    roomC6.gameState.status = GameStatus.playing ∧
    roomC6.players.length = 1 ∧
    roomC6.gameState.currentRound = 3 ∧
    (startGame roomC6 5).gameState.currentRound = 1 ∧
    startGame roomC6 5 ≠ roomC6 := by
  refine ⟨by decide, by decide, by decide, by decide, by decide⟩

/-- C6 amended: the hook startGame itself checks nothing beyond a loaded
room and session: on any invocation it snapshots the player ids as the
giver order, picks the first player id as giver, sets round 1, stamps the
round start, and sets status playing; the host-only, waiting-only and
two-player gating exists only in the UI that renders the start control. -/
theorem startGame_amended (room : GameRoom) (now : ℤ) :
    (startGame room now).gameState.status = GameStatus.playing ∧
    (startGame room now).gameState.currentRound = 1 ∧
    (startGame room now).gameState.currentWordGiver = (room.players.map (fun q => q.1)).head? ∧
    (startGame room now).gameState.wordGiverOrder = room.players.map (fun q => q.1) ∧
    (startGame room now).gameState.guesses = [] ∧
    (startGame room now).gameState.hasFoundWord = false ∧
    (startGame room now).gameState.roundStartTime = some now ∧
    (startGame room now).players = room.players ∧
    (startGame room now).settings = room.settings :=
  ⟨rfl, rfl, rfl, rfl, rfl, rfl, rfl, rfl, rfl⟩

/-- C7: joinRoom fails with not-found when no room code matches the
uppercased input, leaving the directory unchanged; fails with room-full when
the matched room is at or above maxPlayers, leaving the directory unchanged;
otherwise returns the matched room id and writes exactly the new non-host
player with score 0 under the player id (one more member when fresh). -/
theorem joinRoom_spec (rooms : List (Str × GameRoom)) (roomCode playerName playerId : Str)
    (now : ℤ) :
    (rooms.find? (fun e => e.2.code == upper roomCode) = none →
      joinRoom rooms roomCode playerName playerId now = (JoinOutcome.notFound, rooms)) ∧
    (∀ e, rooms.find? (fun e => e.2.code == upper roomCode) = some e →
      e.2.players.length ≥ e.2.settings.maxPlayers →
      joinRoom rooms roomCode playerName playerId now = (JoinOutcome.roomFull, rooms)) ∧
    (∀ e, rooms.find? (fun e => e.2.code == upper roomCode) = some e →
      e.2.players.length < e.2.settings.maxPlayers →
      (joinRoom rooms roomCode playerName playerId now).1 = JoinOutcome.joined e.1 ∧
      (joinRoom rooms roomCode playerName playerId now).2 =
        rooms.map (fun r =>
          if r.1 = e.1 then
            (r.1, { r.2 with
                    players := insertPlayer r.2.players playerId
                      (⟨playerId, playerName, 0, false, true, now⟩ : Player) })
          else r) ∧
      lookupP (insertPlayer e.2.players playerId
          (⟨playerId, playerName, 0, false, true, now⟩ : Player)) playerId =
        some (⟨playerId, playerName, 0, false, true, now⟩ : Player) ∧
      ((¬ ∃ q ∈ e.2.players, q.1 = playerId) →
        (insertPlayer e.2.players playerId
          (⟨playerId, playerName, 0, false, true, now⟩ : Player)).length =
          e.2.players.length + 1)) := by
  refine ⟨?_, ?_, ?_⟩
  · intro h
    simp only [joinRoom, h]
  · intro e he hfull
    simp only [joinRoom, he]
    rw [if_pos hfull]
  · intro e he hnotfull
    refine ⟨?_, ?_, lookupP_insertPlayer_self _ _ _,
      fun hf => insertPlayer_length_fresh _ _ _ hf⟩
    · simp only [joinRoom, he]
      rw [if_neg (by omega)]
    · simp only [joinRoom, he]
      rw [if_neg (by omega)]

theorem joinRoom_spec_witness :
    dirC7.find? (fun e => e.2.code == upper [ 'r', 'o', 'o', 'm', '1', '2']) =
      some (baseRoom.id, roomPlaying) ∧
    roomPlaying.players.length < roomPlaying.settings.maxPlayers ∧
    (joinRoom dirC7 [ 'r', 'o', 'o', 'm', '1', '2'] pC pC 9).1 =
      JoinOutcome.joined baseRoom.id := by
  refine ⟨by decide, by decide, ?_⟩
  exact ((joinRoom_spec dirC7 [ 'r', 'o', 'o', 'm', '1', '2'] pC pC 9).2.2
    (baseRoom.id, roomPlaying) (by decide) (by decide)).1

/-- C8 counterexample: the same player submits the identical guess text
twice in the same round; both submissions are appended to the guess list and
both are evaluated, so nothing deduplicates repeated guesses. -/
theorem submitGuess_no_dedup_counterexample :
    (submitGuess (submitGuess roomC8 pB pB [ 'd', 'o', 'g'] 1000)
        pB pB [ 'd', 'o', 'g'] 2000).gameState.guesses =
      [{ playerId := pB, playerName := pB, guess := [ 'd', 'o', 'g'], timestamp := 1000,
         isCorrect := false, points := 0 },
       { playerId := pB, playerName := pB, guess := [ 'd', 'o', 'g'], timestamp := 2000,
         isCorrect := false, points := 0 }] ∧
    roomC8.gameState.guesses = [] := by
  refine ⟨by decide, by decide⟩

/-- C8 amended: submitGuess performs no per-player deduplication: whenever a
current word is set, every submission is evaluated and appended to the guess
list, including a text identical to one the same player already submitted in
the round; only score crediting is limited to the first correct guess by the
found flag. -/
theorem submitGuess_always_appends (room : GameRoom) (userId playerName guessText : Str)
    (now : ℤ) (w : Str) (hw : room.gameState.currentWord = some w) :
    ∃ g : Guess, g.playerId = userId ∧ g.guess = guessText ∧
      (submitGuess room userId playerName guessText now).gameState.guesses =
        room.gameState.guesses ++ [g] := by
  simp only [submitGuess, hw]
  split
  · exact ⟨_, rfl, rfl, rfl⟩
  · exact ⟨_, rfl, rfl, rfl⟩

theorem submitGuess_always_appends_witness :
    roomC8.gameState.currentWord = some [ 'c', 'a', 't'] ∧
    ∃ g : Guess, g.playerId = pB ∧ g.guess = [ 'd', 'o', 'g'] ∧
      (submitGuess roomC8 pB pB [ 'd', 'o', 'g'] 1000).gameState.guesses =
        roomC8.gameState.guesses ++ [g] :=
  ⟨by decide,
    submitGuess_always_appends roomC8 pB pB [ 'd', 'o', 'g'] 1000 [ 'c', 'a', 't'] (by decide)⟩

theorem calculatePoints_5_60_100 : calculatePoints true 5 60 100 = 92 := by
  show round ((100 : ℚ) * max (3/10) (1 - 5 / 60)) = 92
  rw [max_eq_right (by norm_num), round_eq, Int.floor_eq_iff]
  constructor <;> norm_num

/-- C2 counterexample: with hasFoundWord already true, a later correct guess
is appended to the guess list carrying the points value computed by the
scoring formula (92 at 5 elapsed seconds of a 60 second round), not 0; the
claim that a subsequent correct guess awards 0 points fails on the recorded
guess, even though no score changes and the winner is unchanged. -/
theorem submitGuess_late_correct_counterexample :
    roomC2.gameState.hasFoundWord = true ∧
    (submitGuess roomC2 pB pB [ 'c', 'a', 't'] 5000).gameState.guesses =
      [(⟨pB, pB, [ 'c', 'a', 't'], 5000, true, 92⟩ : Guess)] ∧
    (92 : ℤ) ≠ 0 ∧
    (submitGuess roomC2 pB pB [ 'c', 'a', 't'] 5000).players = roomC2.players ∧
    (submitGuess roomC2 pB pB [ 'c', 'a', 't'] 5000).gameState.roundWinner =
      roomC2.gameState.roundWinner := by
  have hwv : roomC2.gameState.currentWord = some [ 'c', 'a', 't'] := rfl
  have htv : roomC2.gameState.roundStartTime = some 0 := rfl
  have hfv : roomC2.gameState.hasFoundWord = true := rfl
  have hgv : roomC2.gameState.guesses = [] := rfl
  have hdv : roomC2.settings.roundDuration = 60 := rfl
  have hbv : roomC2.settings.pointsForCorrect = 100 := rfl
  refine ⟨rfl, ?_, by decide, ?_, ?_⟩
  · simp only [submitGuess, hwv, htv, hfv, hgv, hdv, hbv, beq_self_eq_true,
      Bool.not_true, Bool.and_false, Bool.false_eq_true, if_false, List.nil_append]
    norm_num [calculatePoints_5_60_100]
  · simp only [submitGuess, hwv, htv, hfv, hgv, hdv, hbv, beq_self_eq_true,
      Bool.not_true, Bool.and_false, Bool.false_eq_true, if_false]
  · simp only [submitGuess, hwv, htv, hfv, hgv, hdv, hbv, beq_self_eq_true,
      Bool.not_true, Bool.and_false, Bool.false_eq_true, if_false]

/-- C2 amended: the first correct guess while hasFoundWord is false is
credited with the time-based points to the guessing player, sets roundWinner
and hasFoundWord, and opens the sudden-death extension; every later correct
guess in the round is still appended with its points field carrying the same
computed formula value (not zeroed), but it changes no player and leaves
roundWinner unchanged. -/
theorem submitGuess_first_correct_wins (room : GameRoom) (userId playerName guessText w : Str)
    (now t : ℤ) (p : Player)
    (hw : room.gameState.currentWord = some w)
    (hmatch : lower guessText = lower w)
    (ht : room.gameState.roundStartTime = some t)
    (hp : lookupP room.players userId = some p) :
    (room.gameState.hasFoundWord = false →
      (submitGuess room userId playerName guessText now).players =
        setScore room.players userId (p.score +
          calculatePoints true (((now - t : ℤ) : ℚ) / 1000)
            (room.settings.roundDuration : ℚ) (room.settings.pointsForCorrect : ℚ)) ∧
      (lookupP (submitGuess room userId playerName guessText now).players userId).map
          (fun q => q.score) =
        some (p.score +
          calculatePoints true (((now - t : ℤ) : ℚ) / 1000)
            (room.settings.roundDuration : ℚ) (room.settings.pointsForCorrect : ℚ)) ∧
      (submitGuess room userId playerName guessText now).gameState.roundWinner = some userId ∧
      (submitGuess room userId playerName guessText now).gameState.hasFoundWord = true ∧
      (submitGuess room userId playerName guessText now).gameState.roundEndTime =
        some (now + timeExtensionOf w.length * 1000) ∧
      (submitGuess room userId playerName guessText now).gameState.guesses =
        room.gameState.guesses ++
          [(⟨userId, playerName, guessText, now, true,
            calculatePoints true (((now - t : ℤ) : ℚ) / 1000)
              (room.settings.roundDuration : ℚ)
              (room.settings.pointsForCorrect : ℚ)⟩ : Guess)]) ∧
    (room.gameState.hasFoundWord = true →
      (submitGuess room userId playerName guessText now).players = room.players ∧
      (submitGuess room userId playerName guessText now).gameState.roundWinner =
        room.gameState.roundWinner ∧
      (submitGuess room userId playerName guessText now).gameState.hasFoundWord = true ∧
      (submitGuess room userId playerName guessText now).gameState.guesses =
        room.gameState.guesses ++
          [(⟨userId, playerName, guessText, now, true,
            calculatePoints true (((now - t : ℤ) : ℚ) / 1000)
              (room.settings.roundDuration : ℚ)
              (room.settings.pointsForCorrect : ℚ)⟩ : Guess)]) := by
  have hbeq : (lower guessText == lower w) = true := beq_iff_eq.mpr hmatch
  constructor
  · intro hf
    refine ⟨?_, ?_, ?_, ?_, ?_, ?_⟩ <;>
      simp only [submitGuess, hw, ht, hf, hbeq, Bool.not_false, Bool.and_self,
        eq_self_iff_true, if_true, hp, Option.map_some', Option.getD_some]
    rw [lookupP_setScore_self room.players userId p _ hp]
    simp only [Option.map_some']
  · intro hf
    refine ⟨?_, ?_, ?_, ?_⟩ <;>
      simp only [submitGuess, hw, ht, hf, hbeq, Bool.not_true, Bool.and_false,
        Bool.false_eq_true, if_false, eq_self_iff_true, if_true]

theorem submitGuess_first_correct_wins_witness :
    roomC8.gameState.currentWord = some [ 'c', 'a', 't'] ∧
    lower [ 'c', 'a', 't'] = lower [ 'c', 'a', 't'] ∧
    roomC8.gameState.roundStartTime = some 0 ∧
    lookupP roomC8.players pB = some playerB ∧
    roomC8.gameState.hasFoundWord = false ∧
    (submitGuess roomC8 pB pB [ 'c', 'a', 't'] 5000).gameState.roundWinner = some pB ∧
    (submitGuess roomC8 pB pB [ 'c', 'a', 't'] 5000).gameState.hasFoundWord = true := by
  refine ⟨by decide, rfl, by decide, by decide, by decide, ?_, ?_⟩
  · exact ((submitGuess_first_correct_wins roomC8 pB pB [ 'c', 'a', 't'] [ 'c', 'a', 't']
      5000 0 playerB (by decide) rfl (by decide) (by decide)).1 (by decide)).2.2.1
  · exact ((submitGuess_first_correct_wins roomC8 pB pB [ 'c', 'a', 't'] [ 'c', 'a', 't']
      5000 0 playerB (by decide) rfl (by decide) (by decide)).1 (by decide)).2.2.2.1

/-- C1 counterexample: two clients resolve the same round-1 timeout; the
second client refreshes its view after the first client wrote +50, its own
client-local ref map is still empty, so it applies a second +50 for the very
same round: the word giver score for round 1 goes from 0 to 100, two score
adjustments for one round. -/
theorem endRound_double_award_counterexample :
    (lookupP (endRoundWrite (refresh (⟨roomPlaying, [], []⟩ : ClientState)
        (endRoundWrite (⟨roomPlaying, [], []⟩ : ClientState) roomPlaying false 10).2)
        (endRoundWrite (⟨roomPlaying, [], []⟩ : ClientState) roomPlaying false 10).2
        false 20).2.players pA).map (fun q => q.score) = some 100 ∧
    (lookupP roomPlaying.players pA).map (fun q => q.score) = some 0 ∧
    roomPlaying.gameState.currentRound = 1 ∧
    (endRoundWrite (⟨roomPlaying, [], []⟩ : ClientState) roomPlaying false 10).2.gameState.currentRound = 1 ∧
    (refresh (⟨roomPlaying, [], []⟩ : ClientState)
        (endRoundWrite (⟨roomPlaying, [], []⟩ : ClientState) roomPlaying false 10).2).view.gameState.currentRound = 1 := by
  refine ⟨by decide, by decide, by decide, by decide, by decide⟩

/-- C1 amended: the timeout and advance guards are client-local, so the
guarantee is per client and per observed snapshot: a client never applies
the timeout write or the advance write twice for the same viewed round; an
advance invocation either leaves the store round unchanged or writes exactly
the viewed round plus one, so racing advances for one round write one value;
and two timeout resolutions computed from the same view snapshot yield at
most one +50 in total, because the score write is an absolute value computed
from the view.  A client that refreshes its view after the timeout write of
another client is not covered and applies a further +50 (see the
counterexample). -/
theorem roundAdvance_at_most_once_per_client :
    (∀ (c : ClientState) (s s2 : GameRoom) (n1 n2 : ℤ),
      endRoundWrite (endRoundWrite c s false n1).1 s2 false n2 =
        ((endRoundWrite c s false n1).1, s2)) ∧
    (∀ (c : ClientState) (s s2 : GameRoom) (n1 n2 : ℤ),
      nextRoundOp (nextRoundOp c s n1).1 s2 n2 = ((nextRoundOp c s n1).1, s2)) ∧
    (∀ (c : ClientState) (s : GameRoom) (n : ℤ),
      (nextRoundOp c s n).2.gameState.currentRound = s.gameState.currentRound ∨
      (nextRoundOp c s n).2.gameState.currentRound = c.view.gameState.currentRound + 1) ∧
    (∀ (c1 c2 : ClientState) (s : GameRoom) (n1 n2 : ℤ) (g : Str) (p : Player),
      c1.view = s → c2.view = s →
      s.gameState.currentWordGiver = some g →
      lookupP s.players g = some p →
      (lookupP (endRoundWrite c2 (endRoundWrite c1 s false n1).2 false n2).2.players g).map
          (fun q => q.score) = some p.score ∨
      (lookupP (endRoundWrite c2 (endRoundWrite c1 s false n1).2 false n2).2.players g).map
          (fun q => q.score) = some (p.score + 50)) := by
  have hskip : ∀ (c : ClientState) (store : GameRoom) (n : ℤ),
      (c.view.id, c.view.gameState.currentRound) ∈ c.timeoutSent →
      endRoundWrite c store false n = (c, store) := by
    intro c store n hmem
    simp only [endRoundWrite]
    rw [if_neg (fun hand => hand.2 hmem)]
  have hdo : ∀ (c : ClientState) (store : GameRoom) (n : ℤ),
      (c.view.id, c.view.gameState.currentRound) ∉ c.timeoutSent →
      endRoundWrite c store false n =
        ({ c with timeoutSent := (c.view.id, c.view.gameState.currentRound) :: c.timeoutSent },
         { store with
            players := setScore store.players (c.view.gameState.currentWordGiver.getD [])
              ((((lookupP c.view.players (c.view.gameState.currentWordGiver.getD [])).map
                (fun p => p.score)).getD 0) + 50)
            updatedAt := n }) := by
    intro c store n hmem
    simp only [endRoundWrite]
    rw [if_pos ⟨trivial, hmem⟩]
  refine ⟨?_, ?_, ?_, ?_⟩
  · intro c s s2 n1 n2
    by_cases h : (c.view.id, c.view.gameState.currentRound) ∈ c.timeoutSent
    · rw [hskip c s n1 h]
      exact hskip c s2 n2 h
    · rw [hdo c s n1 h]
      exact hskip _ s2 n2 (List.mem_cons_self _ _)
  · intro c s s2 n1 n2
    by_cases h : (c.view.id, c.view.gameState.currentRound + 1) ∈ c.nextSent
    · have e1 : nextRoundOp c s n1 = (c, s) := by
        simp only [nextRoundOp]
        rw [if_pos h]
      rw [e1]
      simp only [nextRoundOp]
      rw [if_pos h]
    · have e1 : (nextRoundOp c s n1).1 =
          { c with nextSent := (c.view.id, c.view.gameState.currentRound + 1) :: c.nextSent } := by
        simp only [nextRoundOp]
        rw [if_neg h]
      rw [e1]
      simp only [nextRoundOp]
      rw [if_pos (List.mem_cons_self _ _)]
  · intro c s n
    by_cases h : (c.view.id, c.view.gameState.currentRound + 1) ∈ c.nextSent
    · left
      simp only [nextRoundOp]
      rw [if_pos h]
    · right
      simp only [nextRoundOp]
      rw [if_neg h]
  · intro c1 c2 s n1 n2 g p hv1 hv2 hg hp
    have hlook1 : lookupP (setScore s.players g (p.score + 50)) g =
        some { p with score := p.score + 50 } := lookupP_setScore_self s.players g p _ hp
    by_cases h1 : (c1.view.id, c1.view.gameState.currentRound) ∈ c1.timeoutSent
    · rw [hskip c1 s n1 h1]
      by_cases h2 : (c2.view.id, c2.view.gameState.currentRound) ∈ c2.timeoutSent
      · rw [hskip c2 s n2 h2]
        left
        rw [hp]
        rfl
      · rw [hdo c2 s n2 h2]
        right
        simp only [hv2, hg, Option.getD_some, hp, Option.map_some']
        rw [hlook1]
        rfl
    · rw [hdo c1 s n1 h1]
      simp only [hv1, hg, Option.getD_some, hp, Option.map_some']
      by_cases h2 : (c2.view.id, c2.view.gameState.currentRound) ∈ c2.timeoutSent
      · rw [hskip c2 _ n2 h2]
        right
        simp only [Option.getD_some]
        rw [hlook1]
        rfl
      · rw [hdo c2 _ n2 h2]
        right
        simp only [hv2, hg, Option.getD_some, hp, Option.map_some']
        have hlook2 : lookupP (setScore (setScore s.players g (p.score + 50)) g (p.score + 50)) g =
            some { { p with score := p.score + 50 } with score := p.score + 50 } :=
          lookupP_setScore_self _ g _ _ hlook1
        rw [hlook2]
        rfl

theorem roundAdvance_at_most_once_witness :
    ((⟨roomPlaying, [], []⟩ : ClientState).view = roomPlaying ∧
      roomPlaying.gameState.currentWordGiver = some pA ∧
      lookupP roomPlaying.players pA = some playerA) ∧
    endRoundWrite (endRoundWrite (⟨roomPlaying, [], []⟩ : ClientState) roomPlaying false 1).1
        roomPlaying false 2 =
      ((endRoundWrite (⟨roomPlaying, [], []⟩ : ClientState) roomPlaying false 1).1, roomPlaying) ∧
    ((lookupP (endRoundWrite (⟨roomPlaying, [], []⟩ : ClientState)
        (endRoundWrite (⟨roomPlaying, [], []⟩ : ClientState) roomPlaying false 1).2
        false 2).2.players pA).map (fun q => q.score) = some playerA.score ∨
      (lookupP (endRoundWrite (⟨roomPlaying, [], []⟩ : ClientState)
        (endRoundWrite (⟨roomPlaying, [], []⟩ : ClientState) roomPlaying false 1).2
        false 2).2.players pA).map (fun q => q.score) = some (playerA.score + 50)) := by
  refine ⟨⟨rfl, by decide, by decide⟩, ?_, ?_⟩
  · exact roundAdvance_at_most_once_per_client.1 ⟨roomPlaying, [], []⟩ roomPlaying roomPlaying 1 2
  · exact roundAdvance_at_most_once_per_client.2.2.2 ⟨roomPlaying, [], []⟩ ⟨roomPlaying, [], []⟩
      roomPlaying 1 2 pA playerA rfl rfl (by decide) (by decide)

theorem traceInv_step (N : ℕ) (now : ℤ) (q : ClientState × GameRoom) (j : ℕ)
    (h : TraceInv N q j) : TraceInv N (roundCycle q now) (j + 1) := by
  obtain ⟨hset, hlt, hge, hkeys⟩ := h
  by_cases hcmp : q.2.gameState.currentRound ≥ q.2.settings.totalRounds
  · have hres : roundCycle q now =
        (refresh q.1 q.2,
         { q.2 with gameState := { q.2.gameState with status := GameStatus.finished } }) := by
      simp only [roundCycle, endRoundFinishStep, refresh]
      rw [if_pos hcmp]
    rw [hres]
    refine ⟨hset, ?_, ?_, ?_⟩
    · intro hj1
      exfalso
      rcases Nat.lt_or_ge j N with hjn | hjn
      · have h1 := (hlt hjn).1
        omega
      · omega
    · intro _
      constructor
      · show q.2.gameState.currentRound = N
        rcases Nat.lt_or_ge j N with hjn | hjn
        · have h1 := (hlt hjn).1
          omega
        · exact (hge hjn).1
      · rfl
    · intro key hkey
      exact Nat.le_succ_of_le (hkeys key hkey)
  · push_neg at hcmp
    have hjn : j < N := by
      by_contra hjc
      push_neg at hjc
      have h1 := (hge hjc).1
      omega
    have hr := (hlt hjn).1
    have hst := (hlt hjn).2
    have hj1n : j + 1 < N := by omega
    have hkey : ((q.2.id, q.2.gameState.currentRound + 1) : Str × ℕ) ∉ q.1.nextSent := by
      intro hmem
      have hb := hkeys _ hmem
      simp only at hb
      omega
    have hres : roundCycle q now = nextRoundOp (refresh q.1 q.2) q.2 now := by
      simp only [roundCycle, endRoundFinishStep, refresh]
      rw [if_neg (by omega)]
    rw [hres]
    simp only [TraceInv, nextRoundOp, refresh]
    rw [if_neg hkey]
    refine ⟨hset, ?_, ?_, ?_⟩
    · intro _
      exact ⟨by simp only []; omega, hst⟩
    · intro hj1
      exfalso
      omega
    · intro key hkey2
      rcases List.mem_cons.mp hkey2 with rfl | hmem
      · simp only []
        omega
      · exact Nat.le_succ_of_le (hkeys key hmem)

theorem traceInv_iter (N : ℕ) (now : ℤ) : ∀ (k : ℕ) (q : ClientState × GameRoom) (j : ℕ),
    TraceInv N q j → TraceInv N (advanceTrace now k q) (j + k) := by
  intro k
  induction k with
  | zero => intro q j h; simpa [advanceTrace] using h
  | succ m ih =>
    intro q j h
    have h1 := traceInv_step N now q j h
    have h2 := ih (roundCycle q now) (j + 1) h1
    have hj : j + 1 + m = j + (m + 1) := by omega
    rw [hj] at h2
    simpa [advanceTrace] using h2

/-- C5 counterexample: the round-counter invariant does not cover every
reachable state: the advance tail writes the viewed round plus one with no
precondition on the store, so a client whose view is stale at round 1 while
the store has advanced to round 3 of 5 writes currentRound back to 2 -- the
counter decreases and repeats a value while the game is playing.  The real
code reaches this through the deferred setTimeout tail of endRound and
submitGuess, which fires with the stale captured room snapshot. -/
theorem staleAdvance_counterexample :
    roomRound3.gameState.currentRound = 3 ∧
    roomRound3.gameState.status = GameStatus.playing ∧
    roomRound3.settings.totalRounds = 5 ∧
    (⟨roomPlaying, [], []⟩ : ClientState).view.gameState.currentRound = 1 ∧
    (endRoundFinishStep (⟨roomPlaying, [], []⟩ : ClientState) roomRound3 20).2.gameState.currentRound = 2 := by
  refine ⟨by decide, by decide, by decide, by decide, by decide⟩

/-- C5 amended: the round-counter invariant holds for the synchronized
round-resolution protocol, in which a client resolves a round only on its
current view of the store: from a freshly started game (round 1, playing, N
configured rounds, clean client refs), the synchronized trace takes the
round counter through each value 1..N exactly once in increasing order,
then sets status finished at which point the counter stays at N forever;
along the trace the counter is non-decreasing and bounded by N; and each
individual operation (guess submission, timeout write, advance,
finish-or-advance) invoked on a view equal to the store never decreases the
round counter, the finish-or-advance keeping it within the configured
total.  The view-equals-store hypothesis is essential: an advance invoked
on a stale view writes the stale round plus one over whatever the store
holds. -/
theorem currentRound_monotone_invariant (c : ClientState) (s : GameRoom) (N : ℕ) (now : ℤ)
    (hN : 1 ≤ N)
    (hset : s.settings.totalRounds = N)
    (hr : s.gameState.currentRound = 1)
    (hst : s.gameState.status = GameStatus.playing)
    (hsent : c.nextSent = []) :
    (∀ k, k < N →
      (advanceTrace now k (c, s)).2.gameState.currentRound = k + 1 ∧
      (advanceTrace now k (c, s)).2.gameState.status = GameStatus.playing) ∧
    (∀ k, N ≤ k →
      (advanceTrace now k (c, s)).2.gameState.currentRound = N ∧
      (advanceTrace now k (c, s)).2.gameState.status = GameStatus.finished) ∧
    (∀ k, (advanceTrace now k (c, s)).2.gameState.currentRound ≤
        (advanceTrace now (k + 1) (c, s)).2.gameState.currentRound ∧
      (advanceTrace now k (c, s)).2.gameState.currentRound ≤ N) ∧
    (∀ (room : GameRoom) (uid pn gx : Str) (n : ℤ),
      (submitGuess room uid pn gx n).gameState.currentRound = room.gameState.currentRound) ∧
    (∀ (c2 : ClientState) (s2 : GameRoom) (wf : Bool) (n : ℤ),
      (endRoundWrite c2 s2 wf n).2.gameState.currentRound = s2.gameState.currentRound) ∧
    (∀ (c2 : ClientState) (s2 : GameRoom) (n : ℤ), c2.view = s2 →
      s2.gameState.currentRound ≤ (nextRoundOp c2 s2 n).2.gameState.currentRound) ∧
    (∀ (c2 : ClientState) (s2 : GameRoom) (n : ℤ), c2.view = s2 →
      s2.gameState.currentRound ≤ (endRoundFinishStep c2 s2 n).2.gameState.currentRound ∧
      (endRoundFinishStep c2 s2 n).2.gameState.currentRound ≤
        max s2.gameState.currentRound s2.settings.totalRounds) := by
  have hinv : ∀ k, TraceInv N (advanceTrace now k (c, s)) k := by
    intro k
    have h0 : TraceInv N (c, s) 0 := by
      refine ⟨hset, ?_, ?_, ?_⟩
      · intro _
        exact ⟨hr, hst⟩
      · intro h0
        exact absurd h0 (by omega)
      · intro key hkey
        rw [hsent] at hkey
        simp at hkey
    have h1 := traceInv_iter N now k (c, s) 0 h0
    rw [Nat.zero_add] at h1
    exact h1
  refine ⟨?_, ?_, ?_, ?_, ?_, ?_, ?_⟩
  · intro k hk
    exact (hinv k).2.1 hk
  · intro k hk
    exact (hinv k).2.2.1 hk
  · intro k
    constructor
    · rcases Nat.lt_or_ge (k + 1) N with h1 | h1
      · have ha := ((hinv k).2.1 (by omega)).1
        have hb := ((hinv (k + 1)).2.1 h1).1
        omega
      · rcases Nat.lt_or_ge k N with h2 | h2
        · have ha := ((hinv k).2.1 h2).1
          have hb := ((hinv (k + 1)).2.2.1 h1).1
          omega
        · have ha := ((hinv k).2.2.1 h2).1
          have hb := ((hinv (k + 1)).2.2.1 (by omega)).1
          omega
    · rcases Nat.lt_or_ge k N with h2 | h2
      · have ha := ((hinv k).2.1 h2).1
        omega
      · have ha := ((hinv k).2.2.1 h2).1
        omega
  · intro room uid pn gx n
    simp only [submitGuess]
    split
    · rfl
    · split <;> rfl
  · intro c2 s2 wf n
    simp only [endRoundWrite]
    split <;> rfl
  · intro c2 s2 n hv
    simp only [nextRoundOp]
    split
    · exact le_rfl
    · simp only [hv]
      omega
  · intro c2 s2 n hv
    constructor
    · simp only [endRoundFinishStep]
      split
      · exact le_rfl
      · simp only [nextRoundOp]
        split
        · exact le_rfl
        · simp only [hv]
          omega
    · simp only [endRoundFinishStep]
      split
      · exact le_max_left _ _
      · next hcond =>
        simp only [nextRoundOp]
        split
        · exact le_max_left _ _
        · simp only [hv] at hcond ⊢
          have h2 : s2.gameState.currentRound + 1 ≤ s2.settings.totalRounds := by omega
          exact le_trans h2 (le_max_right _ _)

theorem currentRound_monotone_invariant_witness :
    (1 ≤ 5 ∧ (startGame roomPlaying 7).settings.totalRounds = 5 ∧
      (startGame roomPlaying 7).gameState.currentRound = 1 ∧
      (startGame roomPlaying 7).gameState.status = GameStatus.playing ∧
      ((⟨startGame roomPlaying 7, [], []⟩ : ClientState)).nextSent = []) ∧
    (advanceTrace 11 2 ((⟨startGame roomPlaying 7, [], []⟩ : ClientState),
      startGame roomPlaying 7)).2.gameState.currentRound = 3 ∧
    (advanceTrace 11 9 ((⟨startGame roomPlaying 7, [], []⟩ : ClientState),
      startGame roomPlaying 7)).2.gameState.status = GameStatus.finished := by
  refine ⟨⟨by decide, by decide, by decide, by decide, rfl⟩, ?_, ?_⟩
  · exact ((currentRound_monotone_invariant (⟨startGame roomPlaying 7, [], []⟩ : ClientState)
      (startGame roomPlaying 7) 5 11 (by decide) (by decide) (by decide) (by decide) rfl).1
      2 (by decide)).1
  · exact ((currentRound_monotone_invariant (⟨startGame roomPlaying 7, [], []⟩ : ClientState)
      (startGame roomPlaying 7) 5 11 (by decide) (by decide) (by decide) (by decide) rfl).2.1
      9 (by decide)).2

end Scramble
